import Mathlib

/-!
Verification of the transcript-acquisition scripts of the
Computer-Vision_Recommendation_System repository.

The development shallowly embeds the two fetcher scripts
(`src/scripts/fetch_missing_transcripts.py`, `TranscriptFetcherV2`, and
`src/scripts/fetch_transcripts_advanced.py`, `AdvancedTranscriptFetcher`).
External library calls (HTTP fetches, `youtube_transcript_api`,
`ElementTree.fromstring`, the database) are modelled as explicit inputs:
each embedded function takes the outcome of the external call as a
parameter and mirrors the Python control flow on it.  Python exceptions
are modelled with `Except`; Python's falsy test on a string is the
explicit comparison with the empty string.
-/

/-! ## Python string primitives

`str.split()` (no separator) splits on runs of whitespace and drops empty
tokens; `' '.join` interleaves single spaces; `str.strip()` trims
whitespace from both ends.  All are embedded on `List Char`. -/

/-- Whitespace characters recognised by Python's `str.split()` / `str.strip()`
(restricted to the ASCII whitespace class, which is all the scripts' data
contains). -/
def isPyWs (c : Char) : Bool :=
  c == ' ' || c == '\t' || c == '\n' || c == '\r' || c == '\x0b' || c == '\x0c'

/-- Helper of `pySplit`: accumulates the current (reversed) token while
scanning; whitespace ends the token, everything else extends it. -/
def pySplitAux (acc : List Char) : List Char → List (List Char)
  | [] => if acc.isEmpty then [] else [acc.reverse]
  | c :: cs =>
    if isPyWs c then
      if acc.isEmpty then pySplitAux [] cs else acc.reverse :: pySplitAux [] cs
    else
      pySplitAux (c :: acc) cs

/-- Python `s.split()`: whitespace-separated tokens, empties dropped. -/
def pySplit (s : String) : List (List Char) := pySplitAux [] s.data

/-- Python `' '.join(tokens)`: the tokens interleaved with single spaces
(empty tokens are kept, exactly as `str.join` keeps them). -/
def joinSp : List (List Char) → List Char
  | [] => []
  | [w] => w
  | w :: ws => w ++ ' ' :: joinSp ws

/-- The normalisation `' '.join(text.split())` used by both fetchers. -/
def normalizeWs (s : String) : String := String.mk (joinSp (pySplit s))

/-- Python `s.strip()`: drop whitespace from both ends. -/
def pyStrip (s : String) : String :=
  String.mk (((s.data.dropWhile isPyWs).reverse.dropWhile isPyWs).reverse)

/-- Python `s.replace('\n', ' ')` (single-character replacement). -/
def pyReplaceNl (s : String) : String :=
  String.mk (s.data.map (fun c => if c = '\n' then ' ' else c))

/-! ## Whitespace shape of a normalised string -/

/-- The first character, if any, is not whitespace. -/
def noLeadWs : List Char → Bool
  | [] => true
  | c :: _ => !isPyWs c

/-- The last character, if any, is not whitespace. -/
def noTrailWs : List Char → Bool
  | [] => true
  | [c] => !isPyWs c
  | _ :: c :: rest => noTrailWs (c :: rest)

/-- No two consecutive characters are both whitespace. -/
def noDoubleWs : List Char → Bool
  | c1 :: c2 :: rest => (!(isPyWs c1 && isPyWs c2)) && noDoubleWs (c2 :: rest)
  | _ => true

/-- A string is fully whitespace-normalised: no run of two or more
whitespace characters, no leading and no trailing whitespace. -/
def normalizedShape (s : String) : Bool :=
  noDoubleWs s.data && noLeadWs s.data && noTrailWs s.data


/-! ## The payload parsers

`AdvancedTranscriptFetcher._parse_xml_transcript` cleans each caption
element's text with `re.sub(r'<[^>]+>', '', text)`, `replace('\n', ' ')`
and `strip()`, and joins the cleaned segments with single spaces.
`ElementTree.fromstring` and `root.findall('.//text')` are external
library calls: their combined outcome is modelled as an `Except` value
carrying, on success, the `.text` field of every matched `<text>` element
in document order (`none` standing for a Python `None` text). -/

/-- Split a character list at its first `'>'`: the (possibly empty) run of
non-`'>'` characters before it and the remainder after it, or `none` when
no `'>'` occurs. -/
def splitAtGt : List Char → Option (List Char × List Char)
  | [] => none
  | c :: rest =>
    if c = '>' then some ([], rest)
    else (splitAtGt rest).map (fun p => (c :: p.1, p.2))

/-- Fuel-driven scanner implementing `re.sub(r'<[^>]+>', '', s)`: at a
`'<'`, a nonempty run of non-`'>'` characters closed by `'>'` is removed;
a `'<'` with no such closer is kept literally.  The fuel is the input
length, which every step strictly consumes, so the `0`-fuel branch is
never reached from `stripHtmlTags`. -/
def stripTagsFuel : Nat → List Char → List Char
  | 0, l => l
  | _ + 1, [] => []
  | fuel + 1, c :: rest =>
    if c = '<' then
      match splitAtGt rest with
      | some (body, rest') =>
        if body.isEmpty then '<' :: '>' :: stripTagsFuel fuel rest'
        else stripTagsFuel fuel rest'
      | none => c :: rest
    else c :: stripTagsFuel fuel rest

/-- Python `re.sub(r'<[^>]+>', '', s)`. -/
def stripHtmlTags (s : String) : String :=
  String.mk (stripTagsFuel s.data.length s.data)

/-- Per-element cleaning inside `_parse_xml_transcript`: tag removal,
newline replacement, then `strip()`. -/
def cleanSegment (t : String) : String :=
  pyStrip (pyReplaceNl (stripHtmlTags t))

/-- Embedding of `AdvancedTranscriptFetcher._parse_xml_transcript`.  The
argument is the outcome of the external `ET.fromstring`/`findall` calls
(error, or the text of each `<text>` element in order).  The result is in
`Except` to make raising past the boundary observable: the function's
`try/except` turns the parse error into `.ok none`, and every other step
is total, so no `.error` is ever produced. -/
def parse_xml_transcript (fromstringResult : Except Unit (List (Option String))) :
    Except Unit (Option String) :=
  match fromstringResult with
  | .error _ => .ok none
  | .ok elems =>
    let segments := elems.foldr
      (fun t acc =>
        match t with
        | some s => if s = "" then acc else cleanSegment s :: acc
        | none => acc) []
    .ok (some (String.mk (joinSp (segments.map String.data))))

/-! `TranscriptFetcherV2._parse_subtitle_text` -/

/-- Does the first list occur at the head of the second? -/
def leadsWith : List Char → List Char → Bool
  | [], _ => true
  | _ :: _, [] => false
  | a :: as, b :: bs => (a == b) && leadsWith as bs

/-- Does the first list occur anywhere inside the second (Python's
`needle in hay`)? -/
def occursIn (needle : List Char) : List Char → Bool
  | [] => leadsWith needle []
  | c :: rest => leadsWith needle (c :: rest) || occursIn needle rest

/-- Python `s.isdigit()` (ASCII digits; the scripts only meet ASCII). -/
def pyIsDigit (s : String) : Bool :=
  !s.data.isEmpty && s.data.all Char.isDigit

/-- The line filter of `_parse_subtitle_text`: a stripped line is kept iff
it is nonempty, not a `WEBVTT`/`NOTE` header, has no `-->` time marker,
is not a pure number, does not open markup, and is longer than 2. -/
def keepSubtitleLine (l : String) : Bool :=
  (l != "") && !(l.startsWith "WEBVTT") && !(l.startsWith "NOTE") &&
    !(occursIn "-->".data l.data) && !(pyIsDigit l) &&
    !(l.startsWith "<") && decide (2 < l.length)

/-- Pure body of `TranscriptFetcherV2._parse_subtitle_text`: split the
payload on newlines, strip each line, keep the caption lines, join with
spaces and normalise whitespace. -/
def parse_subtitle_text_core (subtitleContent : String) : String :=
  let lines := (subtitleContent.splitOn "\n").map pyStrip
  let textLines := lines.filter keepSubtitleLine
  normalizeWs (String.mk (joinSp (textLines.map String.data)))

/-- Embedding of `TranscriptFetcherV2._parse_subtitle_text` with the
exception channel made explicit: the body uses only total string
primitives (`split`, `strip`, `startswith`, `in`, `isdigit`, `len`,
`join`), so the function always returns `.ok`. -/
def parse_subtitle_text (subtitleContent : String) : Except Unit String :=
  .ok (parse_subtitle_text_core subtitleContent)

/-! ## The embedded-JSON extractor

`AdvancedTranscriptFetcher._find_transcript_in_json` walks a decoded JSON
value (dicts keep Python's insertion order, modelled as association
lists).  The recursion carries `depth` with a guard `depth > max_depth`
(`max_depth = 10`); the embedding uses the equivalent fuel
`11 - depth`, so the entry point runs with fuel `11` and a call at
depth `d` has fuel `11 - d`. -/

/-- A decoded JSON value. -/
inductive JsonVal where
  | str (s : String)
  | num (n : Int)
  | bool (b : Bool)
  | null
  | arr (items : List JsonVal)
  | obj (fields : List (String × JsonVal))

/-- The transcript-like key names probed at every dict node, in source
order. -/
def transcriptKeys : List String :=
  ["transcript", "captions", "subtitles", "text", "content"]

/-- Python `obj[key]` on a dict modelled as an association list. -/
def lookupKey (fields : List (String × JsonVal)) (k : String) : Option JsonVal :=
  (fields.find? (fun p => p.1 = k)).map (fun p => p.2)

/-- All key hits at one dict node, in `transcriptKeys` order: values that
are strings of length strictly greater than 100 (the source tests
`len(obj[key]) > 100`). -/
def keyHitsList (fields : List (String × JsonVal)) : List String :=
  transcriptKeys.filterMap (fun k =>
    match lookupKey fields k with
    | some (.str s) => if 100 < s.length then some s else none
    | _ => none)

/-- The `for key in [...]: return obj[key]` early return: the first key
hit at this node. -/
def keyHit (fields : List (String × JsonVal)) : Option String :=
  (keyHitsList fields).head?

/-- The `if result: return result` loop over child results: the first
truthy (non-`None`, nonempty) result wins. -/
def firstSome (f : JsonVal → Option String) : List JsonVal → Option String
  | [] => none
  | v :: rest =>
    match f v with
    | some s => if s = "" then firstSome f rest else some s
    | none => firstSome f rest

/-- Fuel-indexed embedding of
`AdvancedTranscriptFetcher._find_transcript_in_json` (fuel `= 11 - depth`;
fuel `0` is the `depth > max_depth` guard). -/
def findTranscriptInJsonFuel : Nat → JsonVal → Option String
  | 0, _ => none
  | fuel + 1, .obj fields =>
    (match keyHit fields with
     | some s => some s
     | none => firstSome (fun w => findTranscriptInJsonFuel fuel w) (fields.map Prod.snd))
  | fuel + 1, .arr items => firstSome (fun w => findTranscriptInJsonFuel fuel w) items
  | _ + 1, _ => none

/-- Embedding of `_find_transcript_in_json(obj)` at its default arguments
(`depth=0`, `max_depth=10`). -/
def find_transcript_in_json (v : JsonVal) : Option String :=
  findTranscriptInJsonFuel 11 v

/-- Specification-side enumeration of every qualifying hit in the search
order the claim describes: at a dict node the key hits (in key-list
order) come before the hits found by recursing into the values in
insertion order; list items are searched in order; the search is cut off
at the depth cap. -/
def transcriptHitsFuel : Nat → JsonVal → List String
  | 0, _ => []
  | fuel + 1, .obj fields =>
    keyHitsList fields ++ (fields.map Prod.snd).flatMap (transcriptHitsFuel fuel)
  | fuel + 1, .arr items => items.flatMap (transcriptHitsFuel fuel)
  | _ + 1, _ => []

/-- All qualifying hits reachable from the root within the depth cap. -/
def transcriptHits (v : JsonVal) : List String := transcriptHitsFuel 11 v

/-! ## The advanced orchestrator (`AdvancedTranscriptFetcher.get_transcript`)

Each method call is an external effect; a run is modelled by a behaviour
function giving, for every (method index, attempt index), what the call
does: return a transcript string, return `None`, or raise. -/

/-- Outcome of one call of one method adapter. -/
inductive MOut where
  | found (t : String)
  | notFound
  | raise
deriving DecidableEq

/-- Result of one `get_transcript` run: the returned pair, the ordered
trace of (method, attempt) invocations, the number of `time.sleep(1)`
pauses executed, and which counter was incremented. -/
structure AdvResult where
  result : Option (String × String)
  trace : List (Nat × Nat)
  sleeps : Nat
  succInc : Bool
  failInc : Bool
deriving DecidableEq

/-- The `for attempt in range(max_retries)` loop for one method `m`,
starting at attempt `a` with `fuel` attempts left: a truthy return ends
the loop, a `None` return just moves to the next attempt, a raised
exception is caught, sleeps one second, and moves to the next attempt. -/
def runAttempts (b : Nat → Nat → MOut) (m : Nat) : Nat → Nat → Option String × List (Nat × Nat) × Nat
  | _, 0 => (none, [], 0)
  | a, fuel + 1 =>
    match b m a with
    | .found t =>
      if t = "" then
        let r := runAttempts b m (a + 1) fuel
        (r.1, (m, a) :: r.2.1, r.2.2)
      else (some t, [(m, a)], 0)
    | .notFound =>
      let r := runAttempts b m (a + 1) fuel
      (r.1, (m, a) :: r.2.1, r.2.2)
    | .raise =>
      let r := runAttempts b m (a + 1) fuel
      (r.1, (m, a) :: r.2.1, r.2.2 + 1)

/-- The method names of the priority chain, in order (`method4_selenium_crawler`
is commented out in the source). -/
def advMethodNames : List String :=
  ["Internal API", "TimedText API", "Library", "JSON Extract"]

/-- The outer `for method_name, method_func in methods` loop. -/
def runMethods (b : Nat → Nat → MOut) (maxRetries : Nat) :
    List Nat → Option (String × Nat) × List (Nat × Nat) × Nat
  | [] => (none, [], 0)
  | m :: rest =>
    let r := runAttempts b m 0 maxRetries
    match r.1 with
    | some t => (some (t, m), r.2.1, r.2.2)
    | none =>
      let r2 := runMethods b maxRetries rest
      (r2.1, r.2.1 ++ r2.2.1, r.2.2 + r2.2.2)

/-- Embedding of `AdvancedTranscriptFetcher.get_transcript(video_id,
max_retries=3)`. -/
def adv_get_transcript (b : Nat → Nat → MOut) (maxRetries : Nat := 3) : AdvResult :=
  let r := runMethods b maxRetries [0, 1, 2, 3]
  match r.1 with
  | some (t, m) =>
    ⟨some (t, advMethodNames.getD m ""), r.2.1, r.2.2, true, false⟩
  | none => ⟨none, r.2.1, r.2.2, false, true⟩

/-! ## `TranscriptFetcherV2`

The two method adapters are external effects; a run on one video is
modelled by the pair of outcomes the two libraries would produce
(`none` for the Python `(None, None)` return, `some (text, name)` for a
successful return).  The availability flags `HAS_TRANSCRIPT_API` /
`HAS_YT_DLP` gate each method exactly as the `if not HAS_...` guards
do. -/

/-- The counters of `TranscriptFetcherV2.__init__` (Python integers,
hence `Int`: the main loop decrements `success_count`). -/
structure V2State where
  success : Int
  fail : Int
  m1succ : Int
  m2succ : Int
deriving DecidableEq

/-- Result of one `TranscriptFetcherV2.get_transcript` call: the returned
pair, the updated counters, and the ordered list of methods invoked. -/
structure V2Step where
  result : Option (String × String)
  state : V2State
  trace : List Nat
deriving DecidableEq

/-- `get_transcript_method1` returns `(None, None)` when
`HAS_TRANSCRIPT_API` is false, otherwise whatever the library interaction
produced. -/
def v2Method1 (hasApi : Bool) (o : Option (String × String)) : Option (String × String) :=
  if hasApi then o else none

/-- `get_transcript_method2` under the `HAS_YT_DLP` guard. -/
def v2Method2 (hasDlp : Bool) (o : Option (String × String)) : Option (String × String) :=
  if hasDlp then o else none

/-- The method-2 fallback half of `get_transcript` (entered only when the
method-1 check failed). -/
def v2Fallback (hasDlp : Bool) (m2 : Option (String × String)) (st : V2State) : V2Step :=
  match v2Method2 hasDlp m2 with
  | some (t, name) =>
    if (t != "") && decide (50 ≤ t.length) then
      ⟨some (t, "method2-" ++ name),
        { st with success := st.success + 1, m2succ := st.m2succ + 1 }, [1, 2]⟩
    else ⟨none, { st with fail := st.fail + 1 }, [1, 2]⟩
  | none => ⟨none, { st with fail := st.fail + 1 }, [1, 2]⟩

/-- Embedding of `TranscriptFetcherV2.get_transcript`: method 1 first;
its result is accepted iff it is truthy and at least 50 characters, in
which case method 2 is never invoked; otherwise method 2 runs under the
same check; if both fail, `fail_count` is incremented. -/
def v2_get_transcript (hasApi hasDlp : Bool) (m1 m2 : Option (String × String))
    (st : V2State) : V2Step :=
  match v2Method1 hasApi m1 with
  | some (t, name) =>
    if (t != "") && decide (50 ≤ t.length) then
      ⟨some (t, "method1-" ++ name),
        { st with success := st.success + 1, m1succ := st.m1succ + 1 }, [1]⟩
    else v2Fallback hasDlp m2 st
  | none => v2Fallback hasDlp m2 st

/-- One iteration of the main loop of `fetch_missing_transcripts` for one
video: call `get_transcript`; if a transcript came back but is shorter
than `min_chars`, adjust the counters (`fail_count += 1`,
`success_count -= 1`) and skip the write; otherwise write it to the
database.  Returns the new counters and the text written, if any. -/
def v2Commit (minChars : Nat) (step : V2Step) : V2State × Option String :=
  match step.result with
  | some (t, _) =>
    if t.length < minChars then
      ({ step.state with fail := step.state.fail + 1,
                         success := step.state.success - 1 }, none)
    else (step.state, some t)
  | none => (step.state, none)

/-- The full per-video iteration: `get_transcript` followed by the
validation/write step. -/
def v2ProcessVideo (hasApi hasDlp : Bool) (m1 m2 : Option (String × String))
    (minChars : Nat) (st : V2State) : V2State × Option String :=
  v2Commit minChars (v2_get_transcript hasApi hasDlp m1 m2 st)

/-- The `for i, video in enumerate(videos)` loop: every candidate is
processed in order (a per-video failure never stops the loop), the
counters thread through, and the database writes accumulate. -/
def runVideos (hasApi hasDlp : Bool) (minChars : Nat) :
    List (Option (String × String) × Option (String × String)) → V2State →
      V2State × List String
  | [], st => (st, [])
  | v :: rest, st =>
    let r := v2ProcessVideo hasApi hasDlp v.1 v.2 minChars st
    let rF := runVideos hasApi hasDlp minChars rest r.1
    (rF.1, r.2.toList ++ rF.2)

/-- Embedding of `fetch_missing_transcripts(batch_size, delay, limit,
min_chars=100)`, at the granularity of its observable effects: the
returned flag, whether the candidate query was executed, and the list of
transcripts written.  With no library available it returns `False`
before the database read; otherwise it reads the candidates, processes
every one of them, and returns `True` (also when the list is empty). -/
def fetch_missing_transcripts (hasApi hasDlp : Bool)
    (videos : List (Option (String × String) × Option (String × String)))
    (minChars : Nat := 100) : Bool × Bool × List String :=
  if !hasApi && !hasDlp then (false, false, [])
  else (true, true, (runVideos hasApi hasDlp minChars videos ⟨0, 0, 0, 0⟩).2)

/-- The exit code computed by `main()` on the non-exceptional path:
`0 if success else 1`. -/
def mainExitCode (hasApi hasDlp : Bool)
    (videos : List (Option (String × String) × Option (String × String)))
    (minChars : Nat) : Nat :=
  if (fetch_missing_transcripts hasApi hasDlp videos minChars).1 then 0 else 1

/-! ## The persistence operation

Both fetchers' `update_video_transcript` run the same SQL
`UPDATE videos SET transcript_text = %s ... WHERE video_id = %s`,
unconditionally.  The videos table is modelled as a map from video id to
the stored transcript text (`none` = row absent or `NULL`). -/

/-- Embedding of `update_video_transcript(video_id, transcript_text)` on
the success path of `execute_query`: the stored text for `videoId` is
replaced by `transcriptText` with no comparison against the existing row,
and `True` is returned. -/
def update_video_transcript (store : String → Option String)
    (videoId transcriptText : String) : (String → Option String) × Bool :=
  (fun v => if v = videoId then some transcriptText else store v, true)

/-! ## The structured caption-listing strategy
(`TranscriptFetcherV2.get_transcript_method1`)

The `youtube_transcript_api` interaction is modelled by the outcomes of
the three lookups the method performs on the listing: the English manual
track, the English auto-generated track, and, per secondary language,
the combined `find_transcript` + `translate('en')` + `fetch()` outcome
(`none` when any of the three raises, which the bare `except` clauses
turn into trying the next language).  A successful outcome carries the
fetched segment texts in order. -/

/-- Outcomes of the caption-listing lookups for one video. -/
structure CaptionEnv where
  manualEn : Option (List String)
  generatedEn : Option (List String)
  langTrack : String → Option (List String)

/-- The secondary-language fallback list, in source order. -/
def secondaryLangs : List String :=
  ["vi", "es", "fr", "de", "ja", "ko", "zh", "hi", "ar"]

/-- The `for lang in [...]` loop: the first language whose
find/translate succeeds wins and tags the result `translated-<lang>`. -/
def firstLang (env : CaptionEnv) : List String → Option (List String × String)
  | [] => none
  | l :: ls =>
    match env.langTrack l with
    | some segs => some (segs, "translated-" ++ l)
    | none => firstLang env ls

/-- The transcript-selection cascade of `get_transcript_method1`:
English manual, then English auto-generated, then the translated
fallback. -/
def pickTranscript (env : CaptionEnv) : Option (List String × String) :=
  match env.manualEn with
  | some segs => some (segs, "manual")
  | none =>
    match env.generatedEn with
    | some segs => some (segs, "auto-generated")
    | none => firstLang env secondaryLangs

/-- Embedding of `TranscriptFetcherV2.get_transcript_method1`: pick a
track, join the fetched segments with spaces, replace newlines,
normalise whitespace, reject empty or shorter-than-50 text, and return
the stripped text with the method tag. -/
def get_transcript_method1 (hasApi : Bool) (env : CaptionEnv) :
    Option (String × String) :=
  if !hasApi then none
  else
    match pickTranscript env with
    | none => none
    | some (segs, name) =>
      let fullText := normalizeWs (pyReplaceNl (String.mk (joinSp (segs.map String.data))))
      if (fullText = "") || (fullText.length < 50) then none
      else some (pyStrip fullText, name)

/-! ### Facts about the split/join normaliser -/

theorem pySplitAux_tokens (cs : List Char) :
    ∀ acc, (∀ c ∈ acc, isPyWs c = false) →
      ∀ w ∈ pySplitAux acc cs, w ≠ [] ∧ ∀ c ∈ w, isPyWs c = false := by
  induction cs with
  | nil =>
    intro acc hacc w hw
    simp only [pySplitAux] at hw
    split at hw
    · simp at hw
    · rename_i hne
      simp only [List.mem_singleton] at hw
      subst hw
      refine ⟨?_, ?_⟩
      · simp only [ne_eq, List.reverse_eq_nil_iff]
        simpa [List.isEmpty_iff] using hne
      · intro c hc
        exact hacc c (List.mem_reverse.mp hc)
  | cons c cs ih =>
    intro acc hacc w hw
    simp only [pySplitAux] at hw
    by_cases hws : isPyWs c
    · simp only [hws, if_true] at hw
      split at hw
      · exact ih [] (by simp) w hw
      · rename_i hne
        rcases List.mem_cons.mp hw with h | h
        · subst h
          refine ⟨?_, ?_⟩
          · simp only [ne_eq, List.reverse_eq_nil_iff]
            simpa [List.isEmpty_iff] using hne
          · intro d hd
            exact hacc d (List.mem_reverse.mp hd)
        · exact ih [] (by simp) w h
    · simp only [hws, if_false] at hw
      refine ih (c :: acc) ?_ w hw
      intro d hd
      rcases List.mem_cons.mp hd with h | h
      · subst h; simpa using hws
      · exact hacc d h

/-- Prepending a whitespace-free block preserves `noDoubleWs`. -/
theorem noDoubleWs_append (w rest : List Char)
    (hw : ∀ c ∈ w, isPyWs c = false) (hrest : noDoubleWs rest = true) :
    noDoubleWs (w ++ rest) = true := by
  induction w with
  | nil => simpa using hrest
  | cons c w' ih =>
    have hc : isPyWs c = false := hw c (List.mem_cons_self _ _)
    have hw' : ∀ d ∈ w', isPyWs d = false := fun d hd => hw d (List.mem_cons_of_mem _ hd)
    have htail : noDoubleWs (w' ++ rest) = true := ih hw'
    cases h : w' ++ rest with
    | nil => rw [List.cons_append, h]; rfl
    | cons c2 t =>
      simp only [List.cons_append, h, noDoubleWs, hc, Bool.false_and, Bool.not_false,
        Bool.true_and]
      rw [← h]
      exact htail

theorem noTrailWs_cons (c : Char) (l : List Char) (hl : l ≠ []) :
    noTrailWs (c :: l) = noTrailWs l := by
  cases l with
  | nil => exact absurd rfl hl
  | cons d t => rfl

theorem noTrailWs_append (w rest : List Char) (hrest : rest ≠ []) :
    noTrailWs (w ++ rest) = noTrailWs rest := by
  induction w with
  | nil => simp
  | cons c w' ih =>
    have h1 : w' ++ rest ≠ [] := by
      intro h
      rcases List.append_eq_nil.mp h with ⟨_, h2⟩
      exact hrest h2
    rw [List.cons_append, noTrailWs_cons c _ h1, ih]

theorem noTrailWs_of_all (w : List Char) (hw : ∀ c ∈ w, isPyWs c = false) :
    noTrailWs w = true := by
  induction w with
  | nil => rfl
  | cons c w' ih =>
    cases hl : w' with
    | nil =>
      simp only [hl, noTrailWs]
      simpa using hw c (List.mem_cons_self _ _)
    | cons d t =>
      rw [← hl, noTrailWs_cons c w' (by simp [hl])]
      exact ih (fun d hd => hw d (List.mem_cons_of_mem _ hd))

theorem joinSp_ne_nil (w : List Char) (ws : List (List Char)) (hw : w ≠ []) :
    joinSp (w :: ws) ≠ [] := by
  cases ws with
  | nil => simpa [joinSp] using hw
  | cons w2 ws' =>
    simp only [joinSp, ne_eq, List.append_eq_nil]
    intro h
    exact hw h.1

theorem joinSp_head (c : Char) (w : List Char) (ws : List (List Char)) :
    ∃ t, joinSp ((c :: w) :: ws) = c :: t := by
  cases ws with
  | nil => exact ⟨w, rfl⟩
  | cons w2 ws' => exact ⟨w ++ ' ' :: joinSp (w2 :: ws'), rfl⟩

/-- Joining nonempty whitespace-free tokens with single spaces yields a
string with no whitespace runs and no leading/trailing whitespace. -/
theorem joinSp_shape (ws : List (List Char))
    (h : ∀ w ∈ ws, w ≠ [] ∧ ∀ c ∈ w, isPyWs c = false) :
    noDoubleWs (joinSp ws) = true ∧ noLeadWs (joinSp ws) = true ∧
      noTrailWs (joinSp ws) = true := by
  induction ws with
  | nil => exact ⟨rfl, rfl, rfl⟩
  | cons w ws' ih =>
    obtain ⟨hwne, hwall⟩ := h w (List.mem_cons_self _ _)
    have h' : ∀ v ∈ ws', v ≠ [] ∧ ∀ c ∈ v, isPyWs c = false :=
      fun v hv => h v (List.mem_cons_of_mem _ hv)
    cases ws' with
    | nil =>
      refine ⟨?_, ?_, ?_⟩
      · have := noDoubleWs_append w [] hwall rfl
        simpa [joinSp] using this
      · cases w with
        | nil => exact absurd rfl hwne
        | cons c t =>
          simp only [joinSp, noLeadWs]
          simp [hwall c (List.mem_cons_self _ _)]
      · simpa [joinSp] using noTrailWs_of_all w hwall
    | cons w2 ws'' =>
      obtain ⟨hd, hlead, htr⟩ := ih h'
      obtain ⟨hw2ne, hw2all⟩ := h' w2 (List.mem_cons_self _ _)
      have hjoin : joinSp (w :: w2 :: ws'') = w ++ ' ' :: joinSp (w2 :: ws'') := rfl
      refine ⟨?_, ?_, ?_⟩
      · rw [hjoin]
        refine noDoubleWs_append w _ hwall ?_
        cases w2 with
        | nil => exact absurd rfl hw2ne
        | cons c2 t2 =>
          obtain ⟨t, ht⟩ := joinSp_head c2 t2 ws''
          rw [ht] at hd ⊢
          have hc2 : isPyWs c2 = false := hw2all c2 (List.mem_cons_self _ _)
          simp [noDoubleWs, hc2, hd]
      · rw [hjoin]
        cases w with
        | nil => exact absurd rfl hwne
        | cons c t =>
          simp only [List.cons_append, noLeadWs]
          simpa using hwall c (List.mem_cons_self _ _)
      · rw [hjoin]
        have hne : (' ' :: joinSp (w2 :: ws'')) ≠ [] := by simp
        rw [noTrailWs_append w _ hne,
          noTrailWs_cons ' ' _ (joinSp_ne_nil w2 ws'' hw2ne)]
        exact htr

/-! ### Counter bookkeeping of the V2 fetcher -/

/-- `get_transcript` increments exactly one of the two counters: on a
returned transcript, `success_count`; otherwise `fail_count`. -/
theorem v2_get_transcript_spec (hasApi hasDlp : Bool) (m1 m2 : Option (String × String))
    (st : V2State) :
    ((v2_get_transcript hasApi hasDlp m1 m2 st).result.isSome = true ∧
     (v2_get_transcript hasApi hasDlp m1 m2 st).state.success = st.success + 1 ∧
     (v2_get_transcript hasApi hasDlp m1 m2 st).state.fail = st.fail) ∨
    ((v2_get_transcript hasApi hasDlp m1 m2 st).result = none ∧
     (v2_get_transcript hasApi hasDlp m1 m2 st).state.success = st.success ∧
     (v2_get_transcript hasApi hasDlp m1 m2 st).state.fail = st.fail + 1) := by
  unfold v2_get_transcript v2Fallback v2Method1 v2Method2
  cases hasApi <;> cases hasDlp <;>
    rcases m1 with _ | ⟨t1, n1⟩ <;> rcases m2 with _ | ⟨t2, n2⟩ <;>
    simp only [if_true, if_false, Bool.true_eq_false, Bool.false_eq_true] <;>
    (try split_ifs) <;> simp

/-- The commit step moves the counters by exactly one success or exactly
one failure, and the too-short branch only undoes an increment that
`get_transcript` just performed. -/
theorem v2ProcessVideo_counts (hasApi hasDlp : Bool) (m1 m2 : Option (String × String))
    (minChars : Nat) (st : V2State) :
    (((v2ProcessVideo hasApi hasDlp m1 m2 minChars st).1.success = st.success + 1 ∧
      (v2ProcessVideo hasApi hasDlp m1 m2 minChars st).1.fail = st.fail) ∨
     ((v2ProcessVideo hasApi hasDlp m1 m2 minChars st).1.success = st.success ∧
      (v2ProcessVideo hasApi hasDlp m1 m2 minChars st).1.fail = st.fail + 1)) := by
  have hspec := v2_get_transcript_spec hasApi hasDlp m1 m2 st
  unfold v2ProcessVideo v2Commit
  rcases hres : (v2_get_transcript hasApi hasDlp m1 m2 st).result with _ | ⟨t0, n0⟩
  · rw [hres] at hspec
    simp at hspec
    dsimp only
    right
    exact hspec
  · rw [hres] at hspec
    simp at hspec
    dsimp only
    split_ifs with hlt
    · right
      refine ⟨?_, ?_⟩ <;> dsimp only <;> omega
    · left
      dsimp only
      exact hspec

/-- The database write of one processed video, when present, is at least
`minChars` long. -/
theorem v2ProcessVideo_write_long (hasApi hasDlp : Bool) (m1 m2 : Option (String × String))
    (minChars : Nat) (st : V2State) (t : String)
    (h : (v2ProcessVideo hasApi hasDlp m1 m2 minChars st).2 = some t) :
    minChars ≤ t.length := by
  unfold v2ProcessVideo v2Commit at h
  rcases hres : (v2_get_transcript hasApi hasDlp m1 m2 st).result with _ | ⟨t0, n0⟩ <;>
    rw [hres] at h <;> dsimp only at h
  · simp at h
  · split_ifs at h with hlt
    simp only [Option.some.injEq] at h
    subst h
    omega

/-- Processing a candidate list adds exactly its length to
`success_count + fail_count`: every candidate is accounted for. -/
theorem runVideos_sum (hasApi hasDlp : Bool) (minChars : Nat)
    (videos : List (Option (String × String) × Option (String × String))) :
    ∀ st : V2State,
      (runVideos hasApi hasDlp minChars videos st).1.success +
        (runVideos hasApi hasDlp minChars videos st).1.fail =
      st.success + st.fail + videos.length := by
  induction videos with
  | nil => intro st; simp [runVideos]
  | cons v rest ih =>
    intro st
    have hstep := v2ProcessVideo_counts hasApi hasDlp v.1 v.2 minChars st
    have htail := ih (v2ProcessVideo hasApi hasDlp v.1 v.2 minChars st).1
    simp only [runVideos, List.length_cons]
    rcases hstep with ⟨h1, h2⟩ | ⟨h1, h2⟩ <;>
      · rw [htail, h1, h2]
        push_cast
        ring

/-! ### First-match behaviour of the translated fallback -/

/-- If `l` is the first language in `ls` whose find/translate succeeds,
the fallback loop uses `l` and tags the result `translated-l`. -/
theorem firstLang_find (env : CaptionEnv) (l : String) (segs : List String) :
    ∀ ls : List String,
      ls.find? (fun x => (env.langTrack x).isSome) = some l →
      env.langTrack l = some segs →
      firstLang env ls = some (segs, "translated-" ++ l) := by
  intro ls
  induction ls with
  | nil => intro hfind; simp at hfind
  | cons x ls ih =>
    intro hfind hsegs
    cases hx : env.langTrack x with
    | none =>
      have hpx : ((env.langTrack x).isSome = false) := by rw [hx]; rfl
      rw [List.find?_cons_of_neg _ (by simp [hpx])] at hfind
      simp only [firstLang, hx]
      exact ih hfind hsegs
    | some s =>
      have hpx : ((env.langTrack x).isSome = true) := by rw [hx]; rfl
      rw [List.find?_cons_of_pos _ (by simp [hpx])] at hfind
      simp only [Option.some.injEq] at hfind
      subst hfind
      rw [hx] at hsegs
      simp only [Option.some.injEq] at hsegs
      subst hsegs
      simp [firstLang, hx]

/-! ### The JSON search returns the first qualifying hit -/

/-- A string longer than 100 characters is not empty. -/
theorem ne_empty_of_long (s : String) (h : 100 < s.length) : s ≠ "" := by
  intro he
  subst he
  simp at h

/-- Every enumerated hit has length strictly greater than 100. -/
theorem transcriptHits_long :
    ∀ (fuel : Nat) (v : JsonVal) (s : String),
      s ∈ transcriptHitsFuel fuel v → 100 < s.length := by
  intro fuel
  induction fuel with
  | zero => intro v s hs; simp [transcriptHitsFuel] at hs
  | succ fuel ih =>
    intro v s hs
    cases v with
    | str s0 => simp [transcriptHitsFuel] at hs
    | num n => simp [transcriptHitsFuel] at hs
    | bool b => simp [transcriptHitsFuel] at hs
    | null => simp [transcriptHitsFuel] at hs
    | arr items =>
      simp only [transcriptHitsFuel, List.mem_flatMap] at hs
      obtain ⟨w, _, hw⟩ := hs
      exact ih w s hw
    | obj fields =>
      simp only [transcriptHitsFuel, List.mem_append] at hs
      rcases hs with hs | hs
      · simp only [keyHitsList, List.mem_filterMap] at hs
        obtain ⟨k, _, hk⟩ := hs
        rcases hlk : lookupKey fields k with _ | w <;> rw [hlk] at hk
        · simp at hk
        · cases w with
          | str s1 =>
            simp only at hk
            split_ifs at hk with hgt
            simp only [Option.some.injEq] at hk
            subst hk
            exact hgt
          | num n => simp at hk
          | bool b => simp at hk
          | null => simp at hk
          | arr l => simp at hk
          | obj l => simp at hk
      · simp only [List.mem_flatMap] at hs
        obtain ⟨w, _, hw⟩ := hs
        exact ih w s hw

/-- The early-return scan over child values equals the head of the
concatenated enumeration, provided the per-child functions agree and no
hit is the empty string. -/
theorem firstSome_eq_head (f : JsonVal → Option String) (g : JsonVal → List String)
    (hfg : ∀ v, f v = (g v).head?) (hne : ∀ v s, s ∈ g v → s ≠ "") :
    ∀ vs : List JsonVal, firstSome f vs = (vs.flatMap g).head? := by
  intro vs
  induction vs with
  | nil => rfl
  | cons v rest ih =>
    simp only [firstSome, hfg v, List.flatMap_cons]
    cases hg : g v with
    | nil => simpa using ih
    | cons s t =>
      have hs : s ≠ "" := hne v s (by rw [hg]; exact List.mem_cons_self _ _)
      simp [hs]

/-- The embedded search returns exactly the head of the hit enumeration:
the first qualifying string in key-before-children, depth-first order
within the depth cap. -/
theorem findF_eq_hits :
    ∀ (fuel : Nat) (v : JsonVal),
      findTranscriptInJsonFuel fuel v = (transcriptHitsFuel fuel v).head? := by
  intro fuel
  induction fuel with
  | zero => intro v; rfl
  | succ fuel ih =>
    have hne : ∀ v s, s ∈ transcriptHitsFuel fuel v → s ≠ "" :=
      fun v s hs => ne_empty_of_long s (transcriptHits_long fuel v s hs)
    intro v
    cases v with
    | str s0 => rfl
    | num n => rfl
    | bool b => rfl
    | null => rfl
    | arr items =>
      simp only [findTranscriptInJsonFuel, transcriptHitsFuel]
      exact firstSome_eq_head _ _ ih hne items
    | obj fields =>
      simp only [findTranscriptInJsonFuel, transcriptHitsFuel, keyHit]
      cases hk : keyHitsList fields with
      | nil =>
        simp only [List.head?_nil, List.nil_append]
        exact firstSome_eq_head _ _ ih hne (fields.map Prod.snd)
      | cons s t => simp

/-! ## Claim theorems -/

set_option maxRecDepth 16384

/-- C1: the claim states that committing a newly fetched transcript never
reduces the stored length and, over an existing usable transcript, writes
only when the new quality tier is strictly higher, otherwise skipping.
The code's `update_video_transcript` runs an unconditional SQL `UPDATE`
with no tier comparison and no skip path.  Evaluated at the failing
input: a video whose stored transcript is 200 characters (usable under
the default 100-character minimum) is overwritten by a 150-character
fetch, reducing the stored length. -/
theorem C1_commit_overwrites_unconditionally :
    ((update_video_transcript
        (fun v => if v = "v1" then some (String.mk (List.replicate 200 'x')) else none)
        "v1" (String.mk (List.replicate 150 'y'))).1 "v1" =
      some (String.mk (List.replicate 150 'y'))) ∧
    (String.mk (List.replicate 150 'y')).length <
      (String.mk (List.replicate 200 'x')).length ∧
    100 ≤ (String.mk (List.replicate 200 'x')).length := by
  refine ⟨?_, by decide, by decide⟩
  simp [update_video_transcript]

/-- C2: once a higher-priority method returns an acceptable transcript,
no lower-priority method is invoked and `get_transcript` returns
immediately with that result.  For `TranscriptFetcherV2`: an accepted
method-1 result (length at least 50) yields exactly that result with the
method trace `[1]` (method 2 never runs).  For
`AdvancedTranscriptFetcher`: if the Internal API attempt loop succeeds,
the run's trace is exactly that loop's trace, so no fallback adapter
appears in it. -/
theorem C2_stop_at_first_acceptable :
    (∀ (hasDlp : Bool) (m2 : Option (String × String)) (st : V2State) (t name : String),
      50 ≤ t.length →
      v2_get_transcript true hasDlp (some (t, name)) m2 st =
        ⟨some (t, "method1-" ++ name),
          { st with success := st.success + 1, m1succ := st.m1succ + 1 }, [1]⟩) ∧
    (∀ (b : Nat → Nat → MOut) (t : String),
      (runAttempts b 0 0 3).1 = some t →
      adv_get_transcript b =
        ⟨some (t, "Internal API"), (runAttempts b 0 0 3).2.1, (runAttempts b 0 0 3).2.2,
          true, false⟩) := by
  constructor
  · intro hasDlp m2 st t name hlen
    have ht : (t != "") = true := by
      have hne : t ≠ "" := by
        intro h
        rw [h] at hlen
        exact absurd hlen (by decide)
      simpa using hne
    simp [v2_get_transcript, v2Method1, ht, hlen]
  · intro b t h
    simp [adv_get_transcript, runMethods, h, advMethodNames]

/-- C2 witness: a manual-tier 50-character method-1 result stops the V2
chain, and a 100-character Internal API result stops the advanced
chain after one invocation. -/
theorem C2_witness :
    v2_get_transcript true true (some (String.mk (List.replicate 50 'a'), "manual")) none
        ⟨0, 0, 0, 0⟩ =
      ⟨some (String.mk (List.replicate 50 'a'), "method1-manual"), ⟨1, 0, 1, 0⟩, [1]⟩ ∧
    adv_get_transcript (fun _ _ => .found (String.mk (List.replicate 100 'b'))) =
      ⟨some (String.mk (List.replicate 100 'b'), "Internal API"), [(0, 0)], 0, true, false⟩ := by
  constructor
  · exact C2_stop_at_first_acceptable.1 true none ⟨0, 0, 0, 0⟩ _ "manual" (by decide)
  · exact C2_stop_at_first_acceptable.2
      (fun _ _ => .found (String.mk (List.replicate 100 'b'))) _ (by decide)

/-- C3 counterexample: with every method call reporting a definitive
not-found (a `None` return without raising), the advanced orchestrator
still invokes the first method at attempts 0, 1 and 2 before moving on —
refuting the claim that a definitive not-found is not re-attempted.  (The
sleep count 0 confirms the pause really is reserved for raised errors.) -/
theorem C3_counterexample :
    (fun (_ _ : Nat) => MOut.notFound) 0 0 = MOut.notFound ∧
    (adv_get_transcript (fun _ _ => MOut.notFound)).trace =
      [(0, 0), (0, 1), (0, 2), (1, 0), (1, 1), (1, 2),
       (2, 0), (2, 1), (2, 2), (3, 0), (3, 1), (3, 2)] ∧
    (adv_get_transcript (fun _ _ => MOut.notFound)).sleeps = 0 :=
  ⟨rfl, rfl, rfl⟩

/-- C3 amended: the orchestrator attempts each method up to the
max-retry count (default 3) on any unsuccessful outcome — raised
transient errors and definitive not-found returns alike — pausing one
second only after a raised error, and moves to the next method only
after exhausting the previous method's attempts. -/
theorem C3_retry_behaviour (b : Nat → Nat → MOut) (t : String)
    (h00 : b 0 0 = .raise) (h01 : b 0 1 = .notFound) (h02 : b 0 2 = .notFound)
    (h10 : b 1 0 = .found t) (ht : t ≠ "") :
    adv_get_transcript b =
      ⟨some (t, "TimedText API"), [(0, 0), (0, 1), (0, 2), (1, 0)], 1, true, false⟩ := by
  simp [adv_get_transcript, runMethods, runAttempts, advMethodNames, h00, h01, h02, h10, ht]

/-- C3 witness: a run whose first method raises once and then reports
not-found twice is attempted three times with a single pause, after
which the second method succeeds on its first attempt. -/
theorem C3_witness :
    adv_get_transcript
        (fun m a =>
          if m = 0 then (if a = 0 then .raise else .notFound)
          else .found (String.mk (List.replicate 120 'c'))) =
      ⟨some (String.mk (List.replicate 120 'c'), "TimedText API"),
        [(0, 0), (0, 1), (0, 2), (1, 0)], 1, true, false⟩ :=
  C3_retry_behaviour _ _ rfl rfl rfl rfl (by decide)

/-- C4: every transcript text passed to the database write in a
`fetch_missing_transcripts` run has length at least the run's configured
`min_chars`; a fetched transcript shorter than the minimum produces no
storage write in that iteration. -/
theorem C4_validation_floor (hasApi hasDlp : Bool)
    (videos : List (Option (String × String) × Option (String × String)))
    (minChars : Nat) (st : V2State) (t : String)
    (ht : t ∈ (runVideos hasApi hasDlp minChars videos st).2) :
    minChars ≤ t.length := by
  induction videos generalizing st with
  | nil => simp [runVideos] at ht
  | cons v rest ih =>
    simp only [runVideos, List.mem_append] at ht
    rcases ht with ht | ht
    · rcases hw : (v2ProcessVideo hasApi hasDlp v.1 v.2 minChars st).2 with _ | t0 <;>
        rw [hw] at ht
      · simp at ht
      · simp [Option.toList] at ht
        subst ht
        exact v2ProcessVideo_write_long hasApi hasDlp v.1 v.2 minChars st _ hw
    · exact ih (v2ProcessVideo hasApi hasDlp v.1 v.2 minChars st).1 ht

/-- C4 witness: a run over one video whose method-1 result is a
150-character transcript writes that text, which satisfies the default
100-character floor. -/
theorem C4_witness :
    (100 : Nat) ≤ (String.mk (List.replicate 150 'd')).length :=
  C4_validation_floor true true
    [(some (String.mk (List.replicate 150 'd'), "manual"), none)]
    100 ⟨0, 0, 0, 0⟩ (String.mk (List.replicate 150 'd')) (by decide)

/-- C5: the payload parsers are total over every input: with the
exception channel explicit, `parse_xml_transcript` and
`parse_subtitle_text` always return `.ok` (normalized text, an empty
result, or no result) and never propagate an error past their
boundary. -/
theorem C5_parsers_never_raise :
    ∀ (r : Except Unit (List (Option String))) (s : String),
      (∃ a, parse_xml_transcript r = .ok a) ∧ ∃ b, parse_subtitle_text s = .ok b := by
  intro r s
  refine ⟨?_, ⟨parse_subtitle_text_core s, rfl⟩⟩
  cases r with
  | error e => exact ⟨none, rfl⟩
  | ok elems => exact ⟨_, rfl⟩

/-- C6: for a video with no English manual and no English auto-generated
transcript, the structured strategy translates the first secondary
language (in the order vi, es, fr, de, ja, ko, zh, hi, ar) whose track
is found and translatable, and returns the method tag
`translated-<lang>`. -/
theorem C6_translated_first_match (env : CaptionEnv) (l : String) (segs : List String)
    (hm : env.manualEn = none) (hg : env.generatedEn = none)
    (hfind : secondaryLangs.find? (fun x => (env.langTrack x).isSome) = some l)
    (hsegs : env.langTrack l = some segs)
    (hlen : 50 ≤ (normalizeWs (pyReplaceNl (String.mk (joinSp (segs.map String.data))))).length) :
    get_transcript_method1 true env =
      some (pyStrip (normalizeWs (pyReplaceNl (String.mk (joinSp (segs.map String.data))))),
        "translated-" ++ l) := by
  have hpick : pickTranscript env = some (segs, "translated-" ++ l) := by
    rw [pickTranscript, hm, hg]
    exact firstLang_find env l segs secondaryLangs hfind hsegs
  have h1 : ¬(normalizeWs (pyReplaceNl (String.mk (joinSp (segs.map String.data)))) = "") := by
    intro h
    rw [h] at hlen
    exact absurd hlen (by decide)
  have h2 : ¬((normalizeWs (pyReplaceNl (String.mk (joinSp (segs.map String.data))))).length < 50) :=
    not_lt.mpr hlen
  simp [get_transcript_method1, hpick, h1, h2]

/-- C6 witness: a video with only a Vietnamese track (60 characters of
fetched text) and no English track is tagged `translated-vi`. -/
theorem C6_witness :
    get_transcript_method1 true
        ⟨none, none,
          fun l => if l = "vi" then some [String.mk (List.replicate 60 'e')] else none⟩ =
      some (pyStrip (normalizeWs (pyReplaceNl (String.mk (joinSp
          ([String.mk (List.replicate 60 'e')].map String.data))))),
        "translated-vi") :=
  C6_translated_first_match
    ⟨none, none, fun l => if l = "vi" then some [String.mk (List.replicate 60 'e')] else none⟩
    "vi" [String.mk (List.replicate 60 'e')] rfl rfl (by decide) (by decide) (by decide)

/-- C7 counterexample: a string of exactly 100 characters stored under
the key `transcript` is not returned by the extractor (the source tests
`len(obj[key]) > 100`, strictly), refuting the claim's `at least 100
characters` threshold. -/
theorem C7_counterexample :
    find_transcript_in_json
        (.obj [("transcript", .str (String.mk (List.replicate 100 'f')))]) = none ∧
      (String.mk (List.replicate 100 'f')).length = 100 :=
  ⟨rfl, by decide⟩

/-- C7 amended: the extractor performs the depth-capped (10) depth-first
search and returns the first string value of length strictly greater
than 100 reachable under the keys transcript, captions, subtitles, text
or content — key lookup at a node before recursion into its children —
or no result when no such string exists within the cap: it returns the
head of the qualifying-hit enumeration in exactly that order, and every
enumerated hit is longer than 100 characters. -/
theorem C7_first_qualifying_hit (v : JsonVal) :
    find_transcript_in_json v = (transcriptHits v).head? ∧
      ∀ s ∈ transcriptHits v, 100 < s.length :=
  ⟨findF_eq_hits 11 v, fun s hs => transcriptHits_long 11 v s hs⟩

/-- C7 witness: a 101-character string under `captions` is the first (and
only) hit, and the extractor returns it. -/
theorem C7_witness :
    find_transcript_in_json
        (.obj [("captions", .str (String.mk (List.replicate 101 'g')))]) =
      (transcriptHits (.obj [("captions", .str (String.mk (List.replicate 101 'g')))])).head? ∧
      100 < (String.mk (List.replicate 101 'g')).length := by
  refine ⟨(C7_first_qualifying_hit _).1, ?_⟩
  exact (C7_first_qualifying_hit
      (.obj [("captions", .str (String.mk (List.replicate 101 'g')))])).2 _ (by decide)

/-- C8 counterexample: the timed-text XML parser only strips each
segment's ends and replaces newlines, so a segment containing an
internal double space survives verbatim: the parsed output of a payload
with the single text element `a  b` keeps the run of two spaces,
refuting the claim for the parser's output. -/
theorem C8_counterexample :
    parse_xml_transcript (.ok [some "a  b"]) = .ok (some "a  b") ∧
      normalizedShape "a  b" = false :=
  ⟨rfl, rfl⟩

/-- C8 amended: the claim holds of the `' '.join(text.split())`
normaliser the fetchers apply (used on every V2 result): its output
contains no run of two or more consecutive whitespace characters and no
leading or trailing whitespace; the XML parser's own output does not
guarantee this. -/
theorem C8_normalizer_output_shape (s : String) :
    normalizedShape (normalizeWs s) = true := by
  have htok : ∀ w ∈ pySplit s, w ≠ [] ∧ ∀ c ∈ w, isPyWs c = false :=
    pySplitAux_tokens s.data [] (by simp)
  obtain ⟨h1, h2, h3⟩ := joinSp_shape (pySplit s) htok
  simp only [normalizedShape, normalizeWs]
  rw [h1, h2, h3]
  rfl

/-- C9: with both library-availability flags false,
`fetch_missing_transcripts` returns failure before the candidate query
runs and with no transcript written, and `main` exits non-zero; with at
least one method available, the run returns success and processes every
candidate — per-video failures never abort the batch (the final
`success_count + fail_count` equals the number of candidates). -/
theorem C9_setup_failure_and_batch_isolation
    (videos : List (Option (String × String) × Option (String × String)))
    (minChars : Nat) :
    (fetch_missing_transcripts false false videos minChars = (false, false, []) ∧
     mainExitCode false false videos minChars = 1) ∧
    (∀ hasApi hasDlp : Bool, (hasApi || hasDlp) = true →
      (fetch_missing_transcripts hasApi hasDlp videos minChars).1 = true ∧
      (runVideos hasApi hasDlp minChars videos ⟨0, 0, 0, 0⟩).1.success +
        (runVideos hasApi hasDlp minChars videos ⟨0, 0, 0, 0⟩).1.fail =
        videos.length) := by
  refine ⟨⟨rfl, rfl⟩, ?_⟩
  intro hasApi hasDlp hor
  constructor
  · cases hasApi <;> cases hasDlp <;> simp_all [fetch_missing_transcripts]
  · have h := runVideos_sum hasApi hasDlp minChars videos ⟨0, 0, 0, 0⟩
    simpa using h

/-- C9 witness: a one-candidate run with only the transcript API
available succeeds and accounts for its single candidate even though
that candidate fails. -/
theorem C9_witness :
    (fetch_missing_transcripts true false [(none, none)] 100).1 = true ∧
      (runVideos true false 100 [(none, none)] ⟨0, 0, 0, 0⟩).1.success +
        (runVideos true false 100 [(none, none)] ⟨0, 0, 0, 0⟩).1.fail = (1 : Int) :=
  (C9_setup_failure_and_batch_isolation [(none, none)] 100).2 true false rfl

/-- C10: each processed candidate increases `success_count + fail_count`
by exactly one, both counters stay non-negative, and the net effect is
exactly one success or exactly one failure (the too-short branch only
undoes an increment `get_transcript` just made). -/
theorem C10_per_video_counter_step (hasApi hasDlp : Bool)
    (m1 m2 : Option (String × String)) (minChars : Nat) (st : V2State)
    (hs : 0 ≤ st.success) (hf : 0 ≤ st.fail) :
    ((v2ProcessVideo hasApi hasDlp m1 m2 minChars st).1.success +
       (v2ProcessVideo hasApi hasDlp m1 m2 minChars st).1.fail =
     st.success + st.fail + 1) ∧
    (0 ≤ (v2ProcessVideo hasApi hasDlp m1 m2 minChars st).1.success ∧
     0 ≤ (v2ProcessVideo hasApi hasDlp m1 m2 minChars st).1.fail) ∧
    (((v2ProcessVideo hasApi hasDlp m1 m2 minChars st).1.success = st.success + 1 ∧
      (v2ProcessVideo hasApi hasDlp m1 m2 minChars st).1.fail = st.fail) ∨
     ((v2ProcessVideo hasApi hasDlp m1 m2 minChars st).1.success = st.success ∧
      (v2ProcessVideo hasApi hasDlp m1 m2 minChars st).1.fail = st.fail + 1)) := by
  have h := v2ProcessVideo_counts hasApi hasDlp m1 m2 minChars st
  rcases h with ⟨h1, h2⟩ | ⟨h1, h2⟩
  · exact ⟨by omega, ⟨by omega, by omega⟩, Or.inl ⟨h1, h2⟩⟩
  · exact ⟨by omega, ⟨by omega, by omega⟩, Or.inr ⟨h1, h2⟩⟩

/-- C10 witness: processing one failing candidate from fresh counters
adds exactly one failure and keeps both counters non-negative. -/
theorem C10_witness :
    ((v2ProcessVideo true true none none 100 ⟨0, 0, 0, 0⟩).1.success +
       (v2ProcessVideo true true none none 100 ⟨0, 0, 0, 0⟩).1.fail = (0 : Int) + 0 + 1) ∧
    (0 ≤ (v2ProcessVideo true true none none 100 ⟨0, 0, 0, 0⟩).1.success ∧
     0 ≤ (v2ProcessVideo true true none none 100 ⟨0, 0, 0, 0⟩).1.fail) ∧
    (((v2ProcessVideo true true none none 100 ⟨0, 0, 0, 0⟩).1.success = (0 : Int) + 1 ∧
      (v2ProcessVideo true true none none 100 ⟨0, 0, 0, 0⟩).1.fail = (0 : Int)) ∨
     ((v2ProcessVideo true true none none 100 ⟨0, 0, 0, 0⟩).1.success = (0 : Int) ∧
      (v2ProcessVideo true true none none 100 ⟨0, 0, 0, 0⟩).1.fail = (0 : Int) + 1)) :=
  C10_per_video_counter_step true true none none 100 ⟨0, 0, 0, 0⟩ (by decide) (by decide)
